import Mathlib

/-!
Verification development for the `fw` workspace-catalog configuration engine
(`src/config/mod.rs`).

The Rust source is shallowly embedded as executable Lean definitions:

* `BTreeSet<String>` is modelled as an arbitrarily ordered `List String`
  whose set semantics (sorted, duplicate-free iteration) is recovered by
  `mkBTreeSet` at the point where the Rust code iterates the set, and
  `BTreeMap<String, _>` as an association list with first-match lookup
  (`mapGet?`) and in-place sorted insertion (`mapInsert`).
* `u8` tag priorities become `Nat` (no arithmetic is performed on them).
* Rust's stable `sort_by_key` becomes the stable insertion sort
  `sort_by_key` below.
* `PathBuf` becomes `RsPath`: an absoluteness flag plus the list of normal
  components, produced from strings by `parsePath` (splitting on `/`).
* The process environment (`env::home_dir()`) is passed explicitly, and the
  `expect` panic inside the workspace joiner is modelled by an explicit
  default argument `d` whose irrelevance is proved.
* File IO and serde (de)serialization are out of scope; `read_config` takes
  the already-parsed `Except` value and `write_config` returns the config
  that would be serialized, keeping the sanity-check gating of the source.
-/

deriving instance DecidableEq for Except

/-- `AppError` from the source, with payloads abstracted to strings. -/
inductive AppErr where
  | userError : String → AppErr
  | badJson : String → AppErr
  | io : String → AppErr
deriving DecidableEq, Repr

/-- `Tag`: a reusable named bundle of effect overrides. -/
structure Tag where
  after_clone : Option String
  after_workon : Option String
  priority : Option Nat
  workspace : Option String
deriving DecidableEq, Repr

/-- `Project`. `tags` is a `BTreeSet<String>` modelled as a raw list; its
set semantics is applied by `mkBTreeSet` where the code iterates it. -/
structure Project where
  name : String
  git : String
  after_clone : Option String
  after_workon : Option String
  override_path : Option String
  tags : Option (List String)
deriving DecidableEq, Repr

/-- `Settings`. `tags` is a `BTreeMap<String, Tag>` modelled as an
association list queried by first-match lookup. -/
structure Settings where
  workspace : String
  shell : Option (List String)
  default_after_workon : Option String
  default_after_clone : Option String
  default_tags : Option (List String)
  tags : Option (List (String × Tag))
deriving DecidableEq, Repr

/-- `Config`: projects keyed by name (`BTreeMap` as association list). -/
structure Config where
  projects : List (String × Project)
  settings : Settings
deriving DecidableEq, Repr

/-- Rust `str::starts_with` (character-level model). -/
def strStartsWith (s pre : String) : Bool :=
  pre.data.isPrefixOf s.data

/-- Rust `str::ends_with` (character-level model). -/
def strEndsWith (s suf : String) : Bool :=
  suf.data.isSuffixOf s.data

/-- Rust `str::split_at(len - n).0`, i.e. dropping the last `n` characters
(all uses are on ASCII suffixes, so bytes = chars). -/
def strDropRight (s : String) (n : Nat) : String :=
  ⟨s.data.take (s.data.length - n)⟩

/-- Splitting a character list on a separator, as Rust `str::split(sep)`:
always yields at least one (possibly empty) segment. -/
def splitChar (sep : Char) : List Char → List (List Char)
  | [] => [[]]
  | c :: cs =>
    let r := splitChar sep cs
    if c = sep then [] :: r
    else
      match r with
      | [] => [[c]]
      | s :: rest => (c :: s) :: rest

/-- Lexicographic strict comparison of character lists by code point — the
order Rust's `Ord for String` induces (UTF-8 byte order coincides with code
point order). -/
def charListLt : List Char → List Char → Bool
  | [], [] => false
  | [], _ :: _ => true
  | _ :: _, [] => false
  | a :: as, b :: bs =>
    if a.toNat < b.toNat then true
    else if b.toNat < a.toNat then false
    else charListLt as bs

/-- Rust's `Ord for String` strict order (kernel-reducible model of `<`). -/
def strLt (a b : String) : Bool := charListLt a.data b.data

/-- Insertion into a `BTreeSet<String>` (kept strictly sorted, no
duplicates). -/
def btreeInsert (a : String) : List String → List String
  | [] => [a]
  | b :: l =>
    if strLt a b then a :: b :: l
    else if a = b then b :: l
    else b :: btreeInsert a l

/-- The sorted duplicate-free list a `BTreeSet<String>` iterates over,
built by inserting the raw elements one by one. -/
def mkBTreeSet (ts : List String) : List String :=
  ts.foldl (fun s a => btreeInsert a s) []

/-- `BTreeMap::get`: first-match association-list lookup. -/
def mapGet? {α : Type} (k : String) : List (String × α) → Option α
  | [] => none
  | (k', v) :: l => if k = k' then some v else mapGet? k l

/-- `BTreeMap::insert`: replace the binding in place if the key exists,
otherwise insert at the sorted position. -/
def mapInsert {α : Type} (k : String) (v : α) : List (String × α) → List (String × α)
  | [] => [(k, v)]
  | (k', v') :: l =>
    if strLt k k' then (k, v) :: (k', v') :: l
    else if k = k' then (k, v) :: l
    else (k', v') :: mapInsert k v l

/-- Stable insertion of `a` into a list already sorted by `key` (the element
goes before the first entry with a strictly larger key, after all entries
with a smaller-or-equal key processed earlier — matching the stability of
Rust's `sort_by_key`). -/
def insertByKey {α : Type} (key : α → Nat) (a : α) : List α → List α
  | [] => [a]
  | b :: l => if key a ≤ key b then a :: b :: l else b :: insertByKey key a l

/-- Rust's stable `Vec::sort_by_key`, modelled as stable insertion sort. -/
def sort_by_key {α : Type} (key : α → Nat) : List α → List α
  | [] => []
  | a :: l => insertByKey key a (sort_by_key key l)

/-- `Config::tag_priority_or_fallback`: the tag's priority, defaulting to 50
(the `None` arm only also logs a debug diagnostic). -/
def tag_priority_or_fallback (tag : Tag) : Nat :=
  match tag.priority with
  | none => 50
  | some p => p

/-- The `resolved_with_priority` vector of `Config::resolve_from_tags`: for
each tag name of the project's tag set (iterated in `BTreeSet` order), look
it up in the settings' tags (a miss is skipped with a warning), extract the
resolver field (an unset field is skipped silently), and pair the value with
the tag's priority. -/
def resolvedWithPriority (settingsTags : List (String × Tag))
    (resolver : Tag → Option String) (tags : List String) : List (String × Nat) :=
  (mkBTreeSet tags).flatMap (fun t =>
    match mapGet? t settingsTags with
    | none => []
    | some actual_tag =>
      match resolver actual_tag with
      | none => []
      | some val => [(val, tag_priority_or_fallback actual_tag)])

/-- `Config::resolve_from_tags`: `None` when the project has no tag set or
the settings define no tags; otherwise stably sort the collected
`(value, priority)` pairs by priority, drop the priorities, and apply the
joiner unless the list is empty. -/
def Config.resolve_from_tags (cfg : Config) (resolver : Tag → Option String)
    (joiner : List String → String) (maybe_tags : Option (List String)) : Option String :=
  match maybe_tags, cfg.settings.tags with
  | none, _ => none
  | _, none => none
  | some tags, some settings_tags =>
    let resolved_with_priority := sort_by_key (fun r => r.2)
      (resolvedWithPriority settings_tags resolver tags)
    let resolved := resolved_with_priority.map (fun r => r.1)
    if resolved.isEmpty then none else some (joiner resolved)

/-- `Config::resolve_workon_from_tags`. -/
def Config.resolve_workon_from_tags (cfg : Config) (maybe_tags : Option (List String)) : Option String :=
  cfg.resolve_from_tags (fun t => t.after_workon) (fun v => String.intercalate " && " v) maybe_tags

/-- `Config::resolve_after_clone_from_tags`. -/
def Config.resolve_after_clone_from_tags (cfg : Config) (maybe_tags : Option (List String)) : Option String :=
  cfg.resolve_from_tags (fun t => t.after_clone) (fun v => String.intercalate " && " v) maybe_tags

/-- `Config::resolve_after_clone`: the project field, or else the tag merge. -/
def Config.resolve_after_clone (cfg : Config) (project : Project) : Option String :=
  project.after_clone <|> cfg.resolve_after_clone_from_tags project.tags

/-- `prepare_workon`: `format!(" && {}", workon)`. -/
def prepare_workon (workon : String) : String :=
  " && " ++ workon

/-- `Config::resolve_after_workon`: project field or tag merge, prefixed
with `" && "`, defaulting to the empty string. -/
def Config.resolve_after_workon (cfg : Config) (project : Project) : String :=
  ((project.after_workon <|> cfg.resolve_workon_from_tags project.tags).map prepare_workon).getD ""

/-- The workspace joiner of `Config::resolve_workspace`:
`workspaces_from_tags.pop()` yields the last element; the
`expect("joiner only used if resolved vec is not empty")` panic is modelled
by the explicit default `d` (proved irrelevant). -/
def workspace_joiner (d : String) (l : List String) : String :=
  (l.getLast?).getD d

/-- `Config::resolve_workspace`: tag merge with the last-element joiner,
falling back to `settings.workspace`. -/
def Config.resolve_workspace (d : String) (cfg : Config) (project : Project) : String :=
  (cfg.resolve_from_tags (fun t => t.workspace) (workspace_joiner d) project.tags).getD
    cfg.settings.workspace

/-- A Rust `PathBuf`/`Path` over Unix semantics: an absoluteness flag (a
leading `RootDir` component) plus the normal components. -/
structure RsPath where
  isAbs : Bool
  comps : List String
deriving DecidableEq, Repr

/-- `Path::new`/`PathBuf::from` on a string: absolute iff it starts with
`/`; the components are the nonempty `/`-separated segments. -/
def parsePath (s : String) : RsPath :=
  ⟨s.data.take 1 = ['/'], ((splitChar '/' s.data).filter (fun seg => seg ≠ [])).map String.mk⟩

/-- `Path::join`: an absolute argument replaces the path, otherwise its
components are appended. -/
def RsPath.join (p q : RsPath) : RsPath :=
  if q.isAbs then q else ⟨p.isAbs, p.comps ++ q.comps⟩

/-- `Path::starts_with`: component-wise prefix test (the root component of
an absolute pattern must also match). -/
def RsPath.startsWith (p q : RsPath) : Bool :=
  if q.isAbs then p.isAbs && q.comps.isPrefixOf p.comps
  else if p.isAbs then q.comps.isEmpty
  else q.comps.isPrefixOf p.comps

/-- The path `~` (a single relative component). -/
def tildePath : RsPath := ⟨false, ["~"]⟩

/-- `do_expand`: with a home directory, join it with the path stripped of
its leading `~` component (`strip_prefix("~")`, whose `expect` is guarded
by the caller); without one, return the path unchanged. -/
def do_expand (path : RsPath) (home_dir : Option RsPath) : RsPath :=
  match home_dir with
  | some home => home.join ⟨false, path.comps.tail⟩
  | none => path

/-- `expand_path`: expand a leading `~` component against the environment's
home directory (passed explicitly), otherwise the identity. -/
def expand_path (home_dir : Option RsPath) (path : RsPath) : RsPath :=
  if path.startsWith tildePath then do_expand path home_dir else path

/-- `Config::actual_path_to_project`: the expanded override path if set,
otherwise the expanded join of the resolved workspace directory and the
project name. -/
def Config.actual_path_to_project (home_dir : Option RsPath) (d : String)
    (cfg : Config) (project : Project) : RsPath :=
  expand_path home_dir
    (match project.override_path with
     | some op => parsePath op
     | none => (parsePath (cfg.resolve_workspace d project)).join (parsePath project.name))

/-- Rendering of a path for the sanity-check error message (stands in for
Rust's `{:?}` debug formatting). -/
def pathRepr (p : RsPath) : String :=
  (if p.isAbs then "/" else "") ++ String.intercalate "/" p.comps

/-- `Project::check_sanity`: the resolved path must be absolute. -/
def Project.check_sanity (home_dir : Option RsPath) (d : String)
    (project : Project) (cfg : Config) : Except AppErr Unit :=
  let path := cfg.actual_path_to_project home_dir d project
  if path.isAbs then Except.ok ()
  else Except.error (AppErr.userError
    ("Misconfigured project " ++ project.name ++ ": resolved path " ++ pathRepr path ++
      " is relative which is not allowed"))

/-- The `for project in self.projects.values() { project.check_sanity(..)? }`
loop of `Config::check_sanity`. -/
def checkSanityList (home_dir : Option RsPath) (d : String) (cfg : Config) :
    List (String × Project) → Except AppErr Unit
  | [] => Except.ok ()
  | (_, p) :: rest =>
    match p.check_sanity home_dir d cfg with
    | Except.error e => Except.error e
    | Except.ok () => checkSanityList home_dir d cfg rest

/-- `Config::check_sanity`: every project must pass; on success the config
is returned unchanged. -/
def Config.check_sanity (home_dir : Option RsPath) (d : String) (cfg : Config) :
    Except AppErr Config :=
  (checkSanityList home_dir d cfg cfg.projects).map (fun _ => cfg)

/-- `read_config`: deserialization and file IO are abstracted into the
`parsed` argument; the loaded config is gated through the sanity check. -/
def read_config (home_dir : Option RsPath) (d : String)
    (parsed : Except AppErr Config) : Except AppErr Config :=
  parsed.bind (Config.check_sanity home_dir d)

/-- `write_config`: the config is gated through the sanity check before
serialization (the file write itself is out of scope; the returned value is
what would be serialized). -/
def write_config (home_dir : Option RsPath) (d : String) (cfg : Config) :
    Except AppErr Config :=
  cfg.check_sanity home_dir d

/-- `repo_name_from_url`: the final `/`-delimited fragment
(`url.rsplit('/').next()`, with the impossible-empty error branch kept),
with a single trailing `".git"` stripped. -/
def repo_name_from_url (url : String) : Except AppErr String :=
  match (splitChar '/' url.data).getLast? with
  | none => Except.error (AppErr.userError
      ("Given URL " ++ url ++ " does not have path fragments so cannot determine project name. Please give one."))
  | some frag =>
    let last_fragment : String := ⟨frag⟩
    Except.ok (if strEndsWith last_fragment ".git" then strDropRight last_fragment 4 else last_fragment)

/-- The name used by `add_entry`:
`maybe_name.ok_or_else(..).or_else(|_| repo_name_from_url(url))`. -/
def addName (maybe_name : Option String) (url : String) : Except AppErr String :=
  match maybe_name with
  | some n => Except.ok n
  | none => repo_name_from_url url

/-- `add_entry` up to (and excluding) the final `write_config` call: the
success value is the updated config that is then handed to the persistence
gateway. -/
def add_entry (maybe_config : Except AppErr Config) (maybe_name : Option String)
    (url : String) : Except AppErr Config :=
  match addName maybe_name url with
  | Except.error e => Except.error e
  | Except.ok name =>
    match maybe_config with
    | Except.error e => Except.error e
    | Except.ok cfg =>
      if (mapGet? name cfg.projects).isSome then
        Except.error (AppErr.userError
          ("Project key " ++ name ++ " already exists, not gonna overwrite it for you"))
      else
        let newProject : Project :=
          { name := name
            git := url
            after_clone := cfg.settings.default_after_clone
            after_workon := cfg.settings.default_after_workon
            override_path := none
            tags := cfg.settings.default_tags }
        Except.ok { cfg with projects := mapInsert name newProject cfg.projects }

/-- `update_entry` up to (and excluding) the final `write_config` call. -/
def update_entry (maybe_config : Except AppErr Config) (name : String)
    (git after_workon after_clone override_path : Option String) : Except AppErr Config :=
  match maybe_config with
  | Except.error e => Except.error e
  | Except.ok cfg =>
    if strStartsWith name "http" || strStartsWith name "git@" then
      Except.error (AppErr.userError
        (name ++ " looks like a repo URL and not like a project name, please fix"))
    else
      match mapGet? name cfg.projects with
      | none => Except.error (AppErr.userError
          ("Project key " ++ name ++ " does not exists. Can not update."))
      | some old_project_config =>
        let updatedProject : Project :=
          { name := old_project_config.name
            git := git.getD old_project_config.git
            after_clone := after_clone <|> old_project_config.after_clone
            after_workon := after_workon <|> old_project_config.after_workon
            override_path := override_path <|> old_project_config.override_path
            tags := none }
        Except.ok { cfg with projects := mapInsert name updatedProject cfg.projects }

/-- The tag-merge contributions with their contributing tag name retained
(the pairs of `resolvedWithPriority` are exactly the projections of these
triples `(tag name, value, priority)`); used to state the ordering
guarantee of the merge. -/
def taggedContributions (settingsTags : List (String × Tag))
    (resolver : Tag → Option String) (tags : List String) :
    List (String × String × Nat) :=
  (mkBTreeSet tags).flatMap (fun t =>
    match mapGet? t settingsTags with
    | none => []
    | some actual_tag =>
      match resolver actual_tag with
      | none => []
      | some val => [(t, val, tag_priority_or_fallback actual_tag)])

/-- Strict ordering "by ascending priority, ties broken by ascending tag
name" on contribution triples `(tag name, value, priority)`. -/
def lexLt (a b : String × String × Nat) : Prop :=
  a.2.2 < b.2.2 ∨ (a.2.2 = b.2.2 ∧ strLt a.1 b.1 = true)

/- Concrete fixtures (the configuration of the source's test module). -/

/-- Test fixture tag1 (priority unset). -/
def exTag1 : Tag := ⟨some "clone1", some "workon1", none, none⟩

/-- Test fixture tag2 (priority unset). -/
def exTag2 : Tag := ⟨some "clone2", some "workon2", none, none⟩

/-- Test fixture tag3 (priority 100). -/
def exTag3 : Tag := ⟨some "clone3", some "workon3", some 100, none⟩

/-- Test fixture tag4 (priority 0). -/
def exTag4 : Tag := ⟨some "clone4", some "workon4", some 0, none⟩

/-- Test fixture project referencing tag1 and tag2. -/
def exProject1 : Project := ⟨"test1", "irrelevant", none, none, none, some ["tag1", "tag2"]⟩

/-- Test fixture project referencing tag1 and a dangling tag name. -/
def exProject2 : Project := ⟨"test2", "irrelevant", none, none, none, some ["tag1", "tag-does-not-exist"]⟩

/-- Test fixture project with explicit overrides. -/
def exProject3 : Project :=
  ⟨"test3", "irrelevant", some "clone override in project", some "workon override in project", none, some ["tag1"]⟩

/-- Test fixture project referencing only a dangling tag name. -/
def exProject4 : Project := ⟨"test4", "irrelevant", none, none, none, some ["tag-does-not-exist"]⟩

/-- Test fixture project referencing the prioritized tag3 and tag4. -/
def exProject5 : Project := ⟨"test5", "irrelevant", none, none, none, some ["tag3", "tag4"]⟩

/-- Test fixture settings: workspace `/test`, tags tag1–tag4. -/
def exSettings : Settings :=
  ⟨"/test", none, none, none, none,
    some [("tag1", exTag1), ("tag2", exTag2), ("tag3", exTag3), ("tag4", exTag4)]⟩

/-- The test fixture config of the source's test module. -/
def exConfig : Config :=
  ⟨[("test1", exProject1), ("test2", exProject2), ("test3", exProject3),
    ("test4", exProject4), ("test5", exProject5)], exSettings⟩

/-- A project whose override path is relative (violates the sanity check). -/
def exBadProject : Project := ⟨"bad", "irrelevant", none, none, some "relative/path", none⟩

/-- A config containing a sanity-violating project. -/
def exBadConfig : Config := ⟨[("bad", exBadProject)], exSettings⟩

/-- A tag contributing a workspace directory with priority 10. -/
def exTagW1 : Tag := ⟨none, none, some 10, some "/wsA"⟩

/-- A tag contributing a workspace directory with unset priority (50). -/
def exTagW2 : Tag := ⟨none, none, none, some "/wsB"⟩

/-- A project referencing the two workspace-contributing tags. -/
def exProjectW : Project := ⟨"testw", "irrelevant", none, none, none, some ["tagw1", "tagw2"]⟩

/-- Settings carrying the workspace-contributing tags. -/
def exSettingsW : Settings :=
  ⟨"/test", none, none, none, none, some [("tagw1", exTagW1), ("tagw2", exTagW2)]⟩

/-- Config for exercising workspace resolution through tags. -/
def exConfigW : Config := ⟨[("testw", exProjectW)], exSettingsW⟩

/-- Settings with the three `default_*` fields set, for the add operation. -/
def exSettingsD : Settings :=
  ⟨"/test", none, some "dworkon", some "dclone", some ["tag1"], some [("tag1", exTag1)]⟩

/-- A pre-existing project for duplicate/update tests. -/
def exProjectE : Project := ⟨"exists", "git@host:a/exists.git", none, none, none, none⟩

/-- Config with one existing project and defaulting settings. -/
def exConfigD : Config := ⟨[("exists", exProjectE)], exSettingsD⟩

/- ## Order facts for the string comparison used by the B-tree models -/

theorem charListLt_irrefl (l : List Char) : charListLt l l = false := by
  induction l with
  | nil => rfl
  | cons a as ih => simp [charListLt, Nat.lt_irrefl, ih]

theorem charListLt_asymm : ∀ {a b : List Char},
    charListLt a b = true → charListLt b a = false
  | [], [], h => by simp [charListLt] at h
  | [], _ :: _, _ => rfl
  | _ :: _, [], h => by simp [charListLt] at h
  | a :: as, b :: bs, h => by
    simp only [charListLt] at h ⊢
    by_cases hab : a.toNat < b.toNat
    · have hba : ¬ b.toNat < a.toNat := by omega
      simp [hab, hba]
    · by_cases hba : b.toNat < a.toNat
      · simp [hab, hba] at h
      · simp only [hab, hba, if_false] at h ⊢
        exact charListLt_asymm h

theorem charListLt_connex : ∀ {a b : List Char},
    charListLt a b = false → charListLt b a = false → a = b
  | [], [], _, _ => rfl
  | [], _ :: _, h, _ => by simp [charListLt] at h
  | _ :: _, [], _, h => by simp [charListLt] at h
  | a :: as, b :: bs, h, h' => by
    simp only [charListLt] at h h'
    by_cases hab : a.toNat < b.toNat
    · simp [hab] at h
    · by_cases hba : b.toNat < a.toNat
      · simp [hba, hab] at h'
      · simp only [hab, hba, if_false] at h h'
        have hn : a.toNat = b.toNat := by omega
        have hc : a = b := Char.eq_of_val_eq (UInt32.ext hn)
        rw [hc, charListLt_connex h h']

theorem charListLt_trans : ∀ {a b c : List Char},
    charListLt a b = true → charListLt b c = true → charListLt a c = true
  | [], _, _ :: _, _, _ => rfl
  | [], _ :: _, [], _, h' => by simp [charListLt] at h'
  | [], [], [], h, _ => by simp [charListLt] at h
  | _ :: _, [], _, h, _ => by simp [charListLt] at h
  | _ :: _, _ :: _, [], _, h' => by simp [charListLt] at h'
  | a :: as, b :: bs, c :: cs, h, h' => by
    simp only [charListLt] at h h' ⊢
    by_cases hab : a.toNat < b.toNat <;> by_cases hbc : b.toNat < c.toNat
    · have : a.toNat < c.toNat := by omega
      simp [this]
    · by_cases hcb : c.toNat < b.toNat
      · simp [hbc, hcb] at h'
      · have hac : a.toNat < c.toNat := by omega
        simp [hac]
    · by_cases hba : b.toNat < a.toNat
      · simp [hab, hba] at h
      · have hac : a.toNat < c.toNat := by omega
        simp [hac]
    · by_cases hba : b.toNat < a.toNat
      · simp [hab, hba] at h
      · by_cases hcb : c.toNat < b.toNat
        · simp [hbc, hcb] at h'
        · simp only [hab, hba, if_false] at h
          simp only [hbc, hcb, if_false] at h'
          have hac : ¬ a.toNat < c.toNat := by omega
          have hca : ¬ c.toNat < a.toNat := by omega
          simp only [hac, hca, if_false]
          exact charListLt_trans h h'

theorem strLt_irrefl (a : String) : strLt a a = false :=
  charListLt_irrefl a.data

theorem strLt_asymm {a b : String} (h : strLt a b = true) : strLt b a = false :=
  charListLt_asymm h

theorem strLt_connex {a b : String} (h : strLt a b = false)
    (h' : strLt b a = false) : a = b :=
  String.ext (charListLt_connex h h')

theorem strLt_trans {a b c : String} (h : strLt a b = true)
    (h' : strLt b c = true) : strLt a c = true :=
  charListLt_trans h h'

theorem strLt_of_not_lt_of_ne {a b : String} (h : ¬ strLt a b = true)
    (h' : a ≠ b) : strLt b a = true := by
  cases hba : strLt b a with
  | true => rfl
  | false =>
    cases hab : strLt a b with
    | true => exact absurd hab h
    | false => exact absurd (strLt_connex hab hba) h'


/- ## `BTreeSet` model lemmas -/

/-- Strict sortedness of a `BTreeSet`'s iteration order. -/
def StrSorted (l : List String) : Prop :=
  List.Pairwise (fun a b => strLt a b = true) l

theorem mem_btreeInsert {x a : String} : ∀ {l : List String},
    x ∈ btreeInsert a l ↔ x = a ∨ x ∈ l
  | [] => by simp [btreeInsert]
  | b :: l => by
    simp only [btreeInsert]
    cases h1 : strLt a b with
    | true =>
      rw [if_pos rfl]
      simp only [List.mem_cons]
    | false =>
      rw [if_neg (by simp)]
      by_cases h2 : a = b
      · subst h2
        rw [if_pos rfl]
        simp only [List.mem_cons]
        tauto
      · rw [if_neg h2]
        simp only [List.mem_cons, mem_btreeInsert]
        tauto

theorem sorted_btreeInsert {a : String} : ∀ {l : List String},
    StrSorted l → StrSorted (btreeInsert a l)
  | [], _ => List.pairwise_singleton _ _
  | b :: l, h => by
    have hrel : ∀ x ∈ l, strLt b x = true :=
      fun x hx => List.rel_of_pairwise_cons h hx
    have htl : StrSorted l := List.Pairwise.tail h
    simp only [btreeInsert]
    cases h1 : strLt a b with
    | true =>
      rw [if_pos rfl]
      refine List.Pairwise.cons ?_ h
      intro x hx
      rcases List.mem_cons.mp hx with rfl | hx
      · exact h1
      · exact strLt_trans h1 (hrel x hx)
    | false =>
      rw [if_neg (by simp)]
      by_cases h2 : a = b
      · rw [if_pos h2]
        exact h
      · rw [if_neg h2]
        have hba : strLt b a = true := strLt_of_not_lt_of_ne (by simp [h1]) h2
        refine List.Pairwise.cons ?_ (sorted_btreeInsert htl)
        intro x hx
        rcases mem_btreeInsert.mp hx with rfl | hx
        · exact hba
        · exact hrel x hx

theorem sorted_foldl_btreeInsert : ∀ (ts : List String) (acc : List String),
    StrSorted acc → StrSorted (ts.foldl (fun s a => btreeInsert a s) acc)
  | [], _, h => h
  | t :: ts, acc, h =>
    sorted_foldl_btreeInsert ts (btreeInsert t acc) (sorted_btreeInsert h)

theorem sorted_mkBTreeSet (ts : List String) : StrSorted (mkBTreeSet ts) :=
  sorted_foldl_btreeInsert ts [] List.Pairwise.nil

theorem mem_foldl_btreeInsert {x : String} : ∀ {ts acc : List String},
    x ∈ ts.foldl (fun s a => btreeInsert a s) acc ↔ x ∈ acc ∨ x ∈ ts
  | [], acc => by simp
  | t :: ts, acc => by
    rw [List.foldl_cons, mem_foldl_btreeInsert, mem_btreeInsert]
    simp only [List.mem_cons]
    tauto

theorem mem_mkBTreeSet {x : String} {ts : List String} :
    x ∈ mkBTreeSet ts ↔ x ∈ ts := by
  rw [mkBTreeSet, mem_foldl_btreeInsert]
  simp

/-- Two strictly sorted lists with the same members are equal. -/
theorem strSorted_unique : ∀ {l₁ l₂ : List String}, StrSorted l₁ → StrSorted l₂ →
    (∀ x, x ∈ l₁ ↔ x ∈ l₂) → l₁ = l₂
  | [], [], _, _, _ => rfl
  | [], b :: l₂, _, _, hm => by
    have : b ∈ ([] : List String) := (hm b).mpr (List.mem_cons_self b l₂)
    simp at this
  | a :: l₁, [], _, _, hm => by
    have : a ∈ ([] : List String) := (hm a).mp (List.mem_cons_self a l₁)
    simp at this
  | a :: l₁, b :: l₂, h₁, h₂, hm => by
    have h₁t : StrSorted l₁ := List.Pairwise.tail h₁
    have h₂t : StrSorted l₂ := List.Pairwise.tail h₂
    have hab : a = b := by
      by_contra hne
      have ha : a ∈ b :: l₂ := (hm a).mp (List.mem_cons_self a l₁)
      have hb : b ∈ a :: l₁ := (hm b).mpr (List.mem_cons_self b l₂)
      rcases List.mem_cons.mp ha with h | ha
      · exact hne h
      · rcases List.mem_cons.mp hb with h | hb
        · exact hne h.symm
        · have hba : strLt b a = true := List.rel_of_pairwise_cons h₂ ha
          have hab2 : strLt a b = true := List.rel_of_pairwise_cons h₁ hb
          have := strLt_asymm hab2
          rw [this] at hba
          exact absurd hba (by simp)
    subst hab
    have htail : ∀ x, x ∈ l₁ ↔ x ∈ l₂ := by
      intro x
      constructor
      · intro hx
        have hlt : strLt a x = true := List.rel_of_pairwise_cons h₁ hx
        have hmem : x ∈ a :: l₂ := (hm x).mp (List.mem_cons_of_mem a hx)
        rcases List.mem_cons.mp hmem with rfl | hx2
        · rw [strLt_irrefl] at hlt
          exact absurd hlt (by simp)
        · exact hx2
      · intro hx
        have hlt : strLt a x = true := List.rel_of_pairwise_cons h₂ hx
        have hmem : x ∈ a :: l₁ := (hm x).mpr (List.mem_cons_of_mem a hx)
        rcases List.mem_cons.mp hmem with rfl | hx2
        · rw [strLt_irrefl] at hlt
          exact absurd hlt (by simp)
        · exact hx2
    rw [strSorted_unique h₁t h₂t htail]

/-- The `BTreeSet` built from a list depends only on the list's members:
re-ordering (or de-duplicating) the input never changes the set. -/
theorem mkBTreeSet_congr {ts ts' : List String}
    (h : ∀ x, x ∈ ts ↔ x ∈ ts') : mkBTreeSet ts = mkBTreeSet ts' :=
  strSorted_unique (sorted_mkBTreeSet ts) (sorted_mkBTreeSet ts')
    (fun x => by rw [mem_mkBTreeSet, mem_mkBTreeSet]; exact h x)

/- ## Stable-sort lemmas -/

theorem mem_insertByKey {α : Type} {key : α → Nat} {a x : α} : ∀ {l : List α},
    x ∈ insertByKey key a l ↔ x = a ∨ x ∈ l
  | [] => by simp [insertByKey]
  | b :: l => by
    simp only [insertByKey]
    by_cases h1 : key a ≤ key b
    · rw [if_pos h1]
      simp only [List.mem_cons]
    · rw [if_neg h1]
      simp only [List.mem_cons, mem_insertByKey]
      tauto

theorem mem_sort_by_key {α : Type} {key : α → Nat} {x : α} : ∀ {l : List α},
    x ∈ sort_by_key key l ↔ x ∈ l
  | [] => Iff.rfl
  | a :: l => by
    simp only [sort_by_key, mem_insertByKey, List.mem_cons, mem_sort_by_key]

theorem sorted_insertByKey {α : Type} {key : α → Nat} {a : α} : ∀ {l : List α},
    List.Pairwise (fun u v => key u ≤ key v) l →
    List.Pairwise (fun u v => key u ≤ key v) (insertByKey key a l)
  | [], _ => List.pairwise_singleton _ _
  | b :: l, h => by
    have hrel : ∀ x ∈ l, key b ≤ key x :=
      fun x hx => List.rel_of_pairwise_cons h hx
    simp only [insertByKey]
    by_cases h1 : key a ≤ key b
    · rw [if_pos h1]
      refine List.Pairwise.cons ?_ h
      intro x hx
      rcases List.mem_cons.mp hx with rfl | hx
      · exact h1
      · exact le_trans h1 (hrel x hx)
    · rw [if_neg h1]
      refine List.Pairwise.cons ?_ (sorted_insertByKey (List.Pairwise.tail h))
      intro x hx
      rcases mem_insertByKey.mp hx with rfl | hx
      · omega
      · exact hrel x hx

theorem sorted_sort_by_key {α : Type} {key : α → Nat} : ∀ (l : List α),
    List.Pairwise (fun u v => key u ≤ key v) (sort_by_key key l)
  | [] => List.Pairwise.nil
  | _ :: l => sorted_insertByKey (sorted_sort_by_key l)

theorem map_insertByKey {α β : Type} (f : α → β) (k1 : α → Nat) (k2 : β → Nat)
    (hk : ∀ x, k2 (f x) = k1 x) (a : α) : ∀ (l : List α),
    (insertByKey k1 a l).map f = insertByKey k2 (f a) (l.map f)
  | [] => rfl
  | b :: l => by
    simp only [insertByKey, List.map_cons, hk]
    by_cases h1 : k1 a ≤ k1 b
    · rw [if_pos h1, if_pos h1, List.map_cons, List.map_cons]
    · rw [if_neg h1, if_neg h1, List.map_cons, map_insertByKey f k1 k2 hk a l]

theorem map_sort_by_key {α β : Type} (f : α → β) (k1 : α → Nat) (k2 : β → Nat)
    (hk : ∀ x, k2 (f x) = k1 x) : ∀ (l : List α),
    (sort_by_key k1 l).map f = sort_by_key k2 (l.map f)
  | [] => rfl
  | a :: l => by
    simp only [sort_by_key, List.map_cons]
    rw [map_insertByKey f k1 k2 hk, map_sort_by_key f k1 k2 hk l]

/-- Inserting a triple whose tag name is strictly below every tag name in a
`lexLt`-sorted list (by the stable priority insertion) keeps the list
`lexLt`-sorted. -/
theorem lex_insertByKey {a : String × String × Nat} : ∀ {l : List (String × String × Nat)},
    List.Pairwise lexLt l → (∀ b ∈ l, strLt a.1 b.1 = true) →
    List.Pairwise lexLt (insertByKey (fun c => c.2.2) a l)
  | [], _, _ => List.pairwise_singleton _ _
  | b :: l, h, hname => by
    have hrel : ∀ x ∈ l, lexLt b x :=
      fun x hx => List.rel_of_pairwise_cons h hx
    simp only [insertByKey]
    by_cases h1 : a.2.2 ≤ b.2.2
    · rw [if_pos h1]
      refine List.Pairwise.cons ?_ h
      intro x hx
      rcases List.mem_cons.mp hx with rfl | hx
      · rcases Nat.lt_or_ge a.2.2 x.2.2 with hlt | hge
        · exact Or.inl hlt
        · exact Or.inr ⟨le_antisymm h1 hge, hname x (List.mem_cons_self _ _)⟩
      · rcases hrel x hx with hlt | ⟨heq, _⟩
        · exact Or.inl (lt_of_le_of_lt h1 hlt)
        · rcases Nat.lt_or_ge a.2.2 x.2.2 with hlt2 | hge2
          · exact Or.inl hlt2
          · refine Or.inr ⟨le_antisymm (heq ▸ h1) hge2, hname x (List.mem_cons_of_mem b hx)⟩
    · rw [if_neg h1]
      refine List.Pairwise.cons ?_
        (lex_insertByKey (List.Pairwise.tail h)
          (fun x hx => hname x (List.mem_cons_of_mem b hx)))
      intro x hx
      rcases mem_insertByKey.mp hx with rfl | hx
      · exact Or.inl (by omega)
      · exact hrel x hx

/-- Stably sorting by priority a list whose tag names are strictly
ascending yields a list strictly sorted by `(priority, tag name)`. -/
theorem lex_sort_by_key : ∀ {l : List (String × String × Nat)},
    List.Pairwise (fun u v => strLt u.1 v.1 = true) l →
    List.Pairwise lexLt (sort_by_key (fun c => c.2.2) l)
  | [], _ => List.Pairwise.nil
  | a :: l, h => by
    simp only [sort_by_key]
    refine lex_insertByKey (lex_sort_by_key (List.Pairwise.tail h)) ?_
    intro b hb
    exact List.rel_of_pairwise_cons h (mem_sort_by_key.mp hb)

/- ## Contribution lemmas -/

/-- The code's `(value, priority)` pairs are the projections of the
name-carrying contribution triples. -/
theorem resolvedWithPriority_eq_map (settingsTags : List (String × Tag))
    (resolver : Tag → Option String) (tags : List String) :
    resolvedWithPriority settingsTags resolver tags =
      (taggedContributions settingsTags resolver tags).map (fun c => (c.2.1, c.2.2)) := by
  rw [resolvedWithPriority, taggedContributions, List.map_flatMap]
  refine List.flatMap_congr ?_
  intro t _
  cases hm : mapGet? t settingsTags with
  | none => simp
  | some actual_tag =>
    cases hr : resolver actual_tag with
    | none => simp [hr]
    | some val => simp [hr]

/-- Every contribution triple carries the name of the set element that
produced it. -/
theorem taggedContributions_name {settingsTags : List (String × Tag)}
    {resolver : Tag → Option String} {t : String} {x : String × String × Nat}
    (hx : x ∈ (match mapGet? t settingsTags with
      | none => []
      | some actual_tag =>
        match resolver actual_tag with
        | none => []
        | some val => [(t, val, tag_priority_or_fallback actual_tag)])) :
    x.1 = t := by
  cases hm : mapGet? t settingsTags with
  | none =>
    rw [hm] at hx
    simp at hx
  | some actual_tag =>
    rw [hm] at hx
    dsimp only at hx
    cases hr : resolver actual_tag with
    | none =>
      rw [hr] at hx
      simp at hx
    | some val =>
      rw [hr] at hx
      rcases List.mem_singleton.mp hx with rfl
      rfl

/-- The contribution triples inherit the strictly ascending tag-name order
of the `BTreeSet` iteration. -/
theorem pairwise_name_taggedContributions (settingsTags : List (String × Tag))
    (resolver : Tag → Option String) (tags : List String) :
    List.Pairwise (fun u v => strLt u.1 v.1 = true)
      (taggedContributions settingsTags resolver tags) := by
  rw [taggedContributions]
  rw [List.pairwise_flatMap]
  constructor
  · intro t _
    cases hm : mapGet? t settingsTags with
    | none => exact List.Pairwise.nil
    | some actual_tag =>
      dsimp only
      cases hr : resolver actual_tag with
      | none => exact List.Pairwise.nil
      | some val => exact List.pairwise_singleton _ _
  · refine List.Pairwise.imp ?_ (sorted_mkBTreeSet tags)
    intro t₁ t₂ hlt x hx y hy
    rw [taggedContributions_name hx, taggedContributions_name hy]
    exact hlt

/-- The code's priority-sorted pair list is the projection of the
lexicographically sorted contribution triples. -/
theorem sortedPairs_eq_map_sortedContribs (settingsTags : List (String × Tag))
    (resolver : Tag → Option String) (tags : List String) :
    sort_by_key (fun r => r.2) (resolvedWithPriority settingsTags resolver tags)
      = (sort_by_key (fun c => c.2.2) (taggedContributions settingsTags resolver tags)).map
          (fun c => (c.2.1, c.2.2)) := by
  rw [resolvedWithPriority_eq_map]
  exact (map_sort_by_key (fun c => (c.2.1, c.2.2)) (fun c => c.2.2) (fun r => r.2)
    (fun x => rfl) (taggedContributions settingsTags resolver tags)).symm

/-- The tag merge only depends on the member set of the project's tag list:
any re-ordering (or duplication) of the input yields the same output. -/
theorem resolve_from_tags_congr (cfg : Config) (resolver : Tag → Option String)
    (joiner : List String → String) {ts ts' : List String}
    (hmem : ∀ x, x ∈ ts ↔ x ∈ ts') :
    cfg.resolve_from_tags resolver joiner (some ts)
      = cfg.resolve_from_tags resolver joiner (some ts') := by
  simp only [Config.resolve_from_tags]
  cases hst : cfg.settings.tags with
  | none => rfl
  | some settings_tags =>
    dsimp only
    rw [resolvedWithPriority, resolvedWithPriority, mkBTreeSet_congr hmem]

/-- C1: the tag merge used by `resolve_after_clone`, `resolve_after_workon`
and workspace resolution orders the contributed values strictly by
ascending tag priority (the priority being `tag_priority_or_fallback`,
i.e. 50 when unset), breaking equal priorities by ascending lexicographic
tag name — the code's sorted pair list is the projection of the
`lexLt`-strictly-sorted contribution triples — and the output is
independent of the iteration order of the project's tag set: re-ordering
the input tag list never changes the output. -/
theorem claim_C1 (cfg : Config) (resolver : Tag → Option String)
    (joiner : List String → String) (ts ts' : List String)
    (hmem : ∀ x, x ∈ ts ↔ x ∈ ts') :
    cfg.resolve_from_tags resolver joiner (some ts)
        = cfg.resolve_from_tags resolver joiner (some ts')
    ∧ (∀ settingsTags : List (String × Tag),
        sort_by_key (fun r => r.2) (resolvedWithPriority settingsTags resolver ts)
          = (sort_by_key (fun c => c.2.2) (taggedContributions settingsTags resolver ts)).map
              (fun c => (c.2.1, c.2.2))
        ∧ List.Pairwise lexLt
            (sort_by_key (fun c => c.2.2) (taggedContributions settingsTags resolver ts))) := by
  refine ⟨resolve_from_tags_congr cfg resolver joiner hmem, ?_⟩
  intro settingsTags
  exact ⟨sortedPairs_eq_map_sortedContribs settingsTags resolver ts,
    lex_sort_by_key (pairwise_name_taggedContributions settingsTags resolver ts)⟩

/-- Witness for C1 at the fixture config, the `after_workon` accessor, the
`" && "` joiner, and the re-ordered, duplicated tag list. -/
theorem claim_C1_witness :
    exConfig.resolve_from_tags (fun t => t.after_workon)
        (fun v => String.intercalate " && " v) (some ["tag4", "tag3"])
      = exConfig.resolve_from_tags (fun t => t.after_workon)
          (fun v => String.intercalate " && " v) (some ["tag3", "tag4", "tag3"])
    ∧ sort_by_key (fun r => r.2)
        (resolvedWithPriority [("tag3", exTag3), ("tag4", exTag4)] (fun t => t.after_workon) ["tag4", "tag3"])
        = (sort_by_key (fun c => c.2.2)
            (taggedContributions [("tag3", exTag3), ("tag4", exTag4)] (fun t => t.after_workon) ["tag4", "tag3"])).map
            (fun c => (c.2.1, c.2.2))
    ∧ List.Pairwise lexLt
        (sort_by_key (fun c => c.2.2)
          (taggedContributions [("tag3", exTag3), ("tag4", exTag4)] (fun t => t.after_workon) ["tag4", "tag3"])) := by
  have h := claim_C1 exConfig (fun t => t.after_workon)
    (fun v => String.intercalate " && " v) ["tag4", "tag3"] ["tag3", "tag4", "tag3"]
    (by intro x; simp only [List.mem_cons, List.not_mem_nil, or_false]; tauto)
  exact ⟨h.1, (h.2 [("tag3", exTag3), ("tag4", exTag4)]).1,
    (h.2 [("tag3", exTag3), ("tag4", exTag4)]).2⟩

/- ## `resolve_after_workon` (C2) -/

theorem prepare_workon_ne_empty (c : String) : prepare_workon c ≠ "" := by
  intro h
  have hlen := congrArg String.length h
  rw [prepare_workon, String.length_append] at hlen
  have h4 : (" && ").length = 4 := rfl
  have h0 : ("" : String).length = 0 := rfl
  rw [h4, h0] at hlen
  omega

/-- C2: `resolve_after_workon` returns the project's `after_workon` field
prefixed with `" && "` when it is set; otherwise the priority-ordered tag
contributions joined by the merge, prefixed with `" && "`; and it returns
the empty string exactly when both the project field is absent and the tag
merge contributes nothing. On the fixture, the project referencing
`tag3{priority 100, workon3}` and `tag4{priority 0, workon4}` resolves to
`" && workon4 && workon3"`. -/
theorem claim_C2 (cfg : Config) (project : Project) :
    (∀ c, project.after_workon = some c →
        cfg.resolve_after_workon project = " && " ++ c)
    ∧ (project.after_workon = none →
        cfg.resolve_after_workon project =
          (match cfg.resolve_workon_from_tags project.tags with
           | some c => " && " ++ c
           | none => ""))
    ∧ (cfg.resolve_after_workon project = "" ↔
        project.after_workon = none ∧ cfg.resolve_workon_from_tags project.tags = none)
    ∧ exConfig.resolve_after_workon exProject5 = " && workon4 && workon3" := by
  refine ⟨?_, ?_, ?_, by decide⟩
  · intro c hc
    simp [Config.resolve_after_workon, hc, prepare_workon]
  · intro hn
    cases ht : cfg.resolve_workon_from_tags project.tags with
    | none => simp [Config.resolve_after_workon, hn, ht]
    | some c => simp [Config.resolve_after_workon, hn, ht, prepare_workon]
  · constructor
    · intro he
      cases hw : project.after_workon with
      | some c =>
        rw [(by simp [Config.resolve_after_workon, hw] :
          cfg.resolve_after_workon project = prepare_workon c)] at he
        exact absurd he (prepare_workon_ne_empty c)
      | none =>
        cases ht : cfg.resolve_workon_from_tags project.tags with
        | some c =>
          rw [(by simp [Config.resolve_after_workon, hw, ht] :
            cfg.resolve_after_workon project = prepare_workon c)] at he
          exact absurd he (prepare_workon_ne_empty c)
        | none => exact ⟨rfl, rfl⟩
    · rintro ⟨hw, ht⟩
      simp [Config.resolve_after_workon, hw, ht]

/-- Witness for C2: the override project and a tag-only project of the
fixture. -/
theorem claim_C2_witness :
    exConfig.resolve_after_workon exProject3 = " && " ++ "workon override in project"
    ∧ exConfig.resolve_after_workon exProject1 =
        (match exConfig.resolve_workon_from_tags exProject1.tags with
         | some c => " && " ++ c
         | none => "")
    ∧ (exConfig.resolve_after_workon exProject4 = "" ↔
        exProject4.after_workon = none
          ∧ exConfig.resolve_workon_from_tags exProject4.tags = none) :=
  ⟨(claim_C2 exConfig exProject3).1 "workon override in project" rfl,
   (claim_C2 exConfig exProject1).2.1 rfl,
   (claim_C2 exConfig exProject4).2.2.1⟩

/- ## Workspace resolution (C3) -/

theorem getLast?_of_ne_nil {α : Type} {l : List α} (h : l ≠ []) :
    ∃ a, l.getLast? = some a := by
  cases hl : l.getLast? with
  | none => exact absurd (List.getLast?_eq_none_iff.mp hl) h
  | some a => exact ⟨a, rfl⟩

theorem key_le_getLast {α : Type} {key : α → Nat} : ∀ {l : List α} {a : α},
    List.Pairwise (fun u v => key u ≤ key v) l → l.getLast? = some a →
    ∀ x ∈ l, key x ≤ key a
  | [], _, _, hl, _ => by simp at hl
  | [b], a, h, hl, x => by
    simp only [List.getLast?_singleton, Option.some.injEq] at hl
    subst hl
    intro hx
    rcases List.mem_singleton.mp hx with rfl
    exact le_refl _
  | b :: c :: l, a, h, hl, x => by
    rw [List.getLast?_cons_cons] at hl
    intro hx
    rcases List.mem_cons.mp hx with rfl | hx
    · have hc : key x ≤ key c := List.rel_of_pairwise_cons h (List.mem_cons_self c l)
      have := key_le_getLast (List.Pairwise.tail h) hl c (List.mem_cons_self c l)
      exact le_trans hc this
    · exact key_le_getLast (List.Pairwise.tail h) hl x hx

/-- The workspace merge: with a last-element joiner, the result is the
value of a maximal-priority contribution. -/
theorem resolve_workspace_spec (d : String) (cfg : Config) (project : Project)
    {st : List (String × Tag)} {ts : List String}
    (hst : cfg.settings.tags = some st) (hts : project.tags = some ts) :
    (resolvedWithPriority st (fun t => t.workspace) ts = [] →
       cfg.resolve_workspace d project = cfg.settings.workspace)
    ∧ (∀ x ∈ resolvedWithPriority st (fun t => t.workspace) ts,
        ∃ m ∈ resolvedWithPriority st (fun t => t.workspace) ts,
          cfg.resolve_workspace d project = m.1
          ∧ ∀ y ∈ resolvedWithPriority st (fun t => t.workspace) ts, y.2 ≤ m.2) := by
  constructor
  · intro hempty
    simp [Config.resolve_workspace, Config.resolve_from_tags, hst, hts, hempty, sort_by_key]
  · intro x hx
    have hxL : x ∈ sort_by_key (fun r => r.2) (resolvedWithPriority st (fun t => t.workspace) ts) :=
      mem_sort_by_key.mpr hx
    have hLne : sort_by_key (fun r => r.2) (resolvedWithPriority st (fun t => t.workspace) ts) ≠ [] :=
      List.ne_nil_of_mem hxL
    obtain ⟨m, hm⟩ := getLast?_of_ne_nil hLne
    refine ⟨m, mem_sort_by_key.mp (List.mem_of_mem_getLast? hm), ?_, ?_⟩
    · have hmapne : (sort_by_key (fun r => r.2)
          (resolvedWithPriority st (fun t => t.workspace) ts)).map (fun r => r.1) ≠ [] := by
        simp [hLne]
      rw [Config.resolve_workspace, Config.resolve_from_tags.eq_def, hts, hst]
      dsimp only
      rw [if_neg (by simp [List.isEmpty_iff, hmapne])]
      rw [Option.getD_some, workspace_joiner, List.getLast?_map, hm]
      rfl
    · intro y hy
      exact key_le_getLast (sorted_sort_by_key _) hm y (mem_sort_by_key.mpr hy)

/-- C3: the resolved project path is the expansion of `override_path` when
set (bypassing workspace and tag resolution); otherwise the expansion of
the resolved workspace directory joined with the project name, where the
workspace directory falls back to `settings.workspace` when the project
has no tag set, the settings define no tags, or no tag contributes a
workspace — and otherwise is the value of a maximal-priority workspace
contribution. -/
theorem claim_C3 (home_dir : Option RsPath) (d : String) (cfg : Config) (project : Project) :
    cfg.actual_path_to_project home_dir d project =
      (match project.override_path with
       | some op => expand_path home_dir (parsePath op)
       | none => expand_path home_dir
           ((parsePath (cfg.resolve_workspace d project)).join (parsePath project.name)))
    ∧ (project.tags = none → cfg.resolve_workspace d project = cfg.settings.workspace)
    ∧ (cfg.settings.tags = none → cfg.resolve_workspace d project = cfg.settings.workspace)
    ∧ (∀ st ts, cfg.settings.tags = some st → project.tags = some ts →
        (resolvedWithPriority st (fun t => t.workspace) ts = [] →
           cfg.resolve_workspace d project = cfg.settings.workspace)
        ∧ (∀ x ∈ resolvedWithPriority st (fun t => t.workspace) ts,
            ∃ m ∈ resolvedWithPriority st (fun t => t.workspace) ts,
              cfg.resolve_workspace d project = m.1
              ∧ ∀ y ∈ resolvedWithPriority st (fun t => t.workspace) ts, y.2 ≤ m.2)) := by
  refine ⟨?_, ?_, ?_, ?_⟩
  · rw [Config.actual_path_to_project]
    cases project.override_path <;> rfl
  · intro h
    simp [Config.resolve_workspace, Config.resolve_from_tags, h]
  · intro h
    rw [Config.resolve_workspace, Config.resolve_from_tags.eq_def, h]
    cases project.tags <;> rfl
  · intro st ts hst hts
    exact resolve_workspace_spec d cfg project hst hts

/-- Witness for C3: the workspace fixture with `tagw1` (priority 10,
`/wsA`) and `tagw2` (priority 50, `/wsB`); the resolved workspace is the
maximal-priority contribution. -/
theorem claim_C3_witness :
    exConfigW.actual_path_to_project none "D" exProjectW =
      (match exProjectW.override_path with
       | some op => expand_path none (parsePath op)
       | none => expand_path none
           ((parsePath (exConfigW.resolve_workspace "D" exProjectW)).join (parsePath exProjectW.name)))
    ∧ (∃ m ∈ resolvedWithPriority [("tagw1", exTagW1), ("tagw2", exTagW2)] (fun t => t.workspace) ["tagw1", "tagw2"],
        exConfigW.resolve_workspace "D" exProjectW = m.1
        ∧ ∀ y ∈ resolvedWithPriority [("tagw1", exTagW1), ("tagw2", exTagW2)] (fun t => t.workspace) ["tagw1", "tagw2"],
            y.2 ≤ m.2) := by
  have h := claim_C3 none "D" exConfigW exProjectW
  refine ⟨h.1, ?_⟩
  exact (h.2.2.2 [("tagw1", exTagW1), ("tagw2", exTagW2)] ["tagw1", "tagw2"] rfl rfl).2
    ("/wsA", 10) (by decide)

/- ## Totality of resolution (C10) -/

/-- C10: the three resolution operations are total functions of the config
and project (their embeddings return plain values, with no error case),
and the `expect("joiner only used if resolved vec is not empty")` panic
inside workspace resolution is unreachable: the joiner is only ever applied
to a non-empty contribution list, so the merge result — and with it the
resolved workspace and project path — does not depend on the joiner's (or
the pop default's) behaviour on the empty list. -/
theorem claim_C10 (cfg : Config) (resolver : Tag → Option String)
    (maybe_tags : Option (List String)) (j₁ j₂ : List String → String)
    (h : ∀ l, l ≠ [] → j₁ l = j₂ l) (d₁ d₂ : String) (home_dir : Option RsPath)
    (project : Project) :
    cfg.resolve_from_tags resolver j₁ maybe_tags
        = cfg.resolve_from_tags resolver j₂ maybe_tags
    ∧ cfg.resolve_workspace d₁ project = cfg.resolve_workspace d₂ project
    ∧ cfg.actual_path_to_project home_dir d₁ project
        = cfg.actual_path_to_project home_dir d₂ project := by
  have hgen : ∀ (r : Tag → Option String) (j₁ j₂ : List String → String),
      (∀ l, l ≠ [] → j₁ l = j₂ l) →
      ∀ mt, cfg.resolve_from_tags r j₁ mt = cfg.resolve_from_tags r j₂ mt := by
    intro r j₁ j₂ hj mt
    rw [Config.resolve_from_tags.eq_def, Config.resolve_from_tags.eq_def]
    cases mt with
    | none => cases cfg.settings.tags <;> rfl
    | some ts =>
      cases hst : cfg.settings.tags with
      | none => rfl
      | some st =>
        dsimp only
        cases hres : (sort_by_key (fun x => x.2)
            (resolvedWithPriority st r ts)).map (fun x => x.1) with
        | nil => simp
        | cons a l =>
          rw [if_neg (by simp), if_neg (by simp)]
          rw [hj (a :: l) (by simp)]
  have hws : ∀ (d₁ d₂ : String),
      cfg.resolve_workspace d₁ project = cfg.resolve_workspace d₂ project := by
    intro d₁ d₂
    rw [Config.resolve_workspace, Config.resolve_workspace]
    have := hgen (fun t => t.workspace) (workspace_joiner d₁) (workspace_joiner d₂) ?_ project.tags
    · rw [this]
    · intro l hl
      obtain ⟨a, ha⟩ := getLast?_of_ne_nil hl
      rw [workspace_joiner, workspace_joiner, ha, Option.getD_some, Option.getD_some]
  refine ⟨hgen resolver j₁ j₂ h maybe_tags, hws d₁ d₂, ?_⟩
  rw [Config.actual_path_to_project, Config.actual_path_to_project]
  cases project.override_path with
  | some op => rfl
  | none =>
    dsimp only
    rw [hws d₁ d₂]

/-- Witness for C10: two distinct pop defaults and two joiners agreeing on
non-empty lists give identical resolution results on the fixtures. -/
theorem claim_C10_witness :
    exConfigW.resolve_from_tags (fun t => t.workspace)
        (fun v => String.intercalate " && " v) (some ["tagw1", "tagw2"])
      = exConfigW.resolve_from_tags (fun t => t.workspace)
          (fun v => match v with
            | [] => "unreachable"
            | l => String.intercalate " && " l) (some ["tagw1", "tagw2"])
    ∧ exConfigW.resolve_workspace "panicA" exProjectW
        = exConfigW.resolve_workspace "panicB" exProjectW
    ∧ exConfigW.actual_path_to_project none "panicA" exProjectW
        = exConfigW.actual_path_to_project none "panicB" exProjectW :=
  claim_C10 exConfigW (fun t => t.workspace) (some ["tagw1", "tagw2"])
    (fun v => String.intercalate " && " v)
    (fun v => match v with
      | [] => "unreachable"
      | l => String.intercalate " && " l)
    (fun l hl => by cases l with
      | nil => exact absurd rfl hl
      | cons a t => rfl)
    "panicA" "panicB" none exProjectW

/- ## Dangling tag references (C4) -/

theorem mkBTreeSet_cons (t : String) (ts : List String) :
    mkBTreeSet (t :: ts) = btreeInsert t (mkBTreeSet ts) := by
  refine strSorted_unique (sorted_mkBTreeSet (t :: ts))
    (sorted_btreeInsert (sorted_mkBTreeSet ts)) ?_
  intro x
  rw [mem_mkBTreeSet, mem_btreeInsert, mem_mkBTreeSet, List.mem_cons]

theorem flatMap_btreeInsert_of_nil {α : Type} {f : String → List α} {t : String}
    (hf : f t = []) : ∀ (l : List String),
    (btreeInsert t l).flatMap f = l.flatMap f
  | [] => by simp [btreeInsert, hf]
  | b :: l => by
    simp only [btreeInsert]
    cases h1 : strLt t b with
    | true =>
      rw [if_pos rfl]
      simp [hf]
    | false =>
      rw [if_neg (by simp)]
      by_cases h2 : t = b
      · rw [if_pos h2]
      · rw [if_neg h2]
        simp only [List.flatMap_cons, flatMap_btreeInsert_of_nil hf l]

/-- C4: a project tag name absent from `settings.tags` is skipped by the
merge — resolution with the dangling name gives exactly the result without
it, never an error — and on the fixture, the project with tags
`{"tag1","tag-does-not-exist"}` (where `tag1` defines `after_clone:
"clone1"`) resolves `after_clone` to `some "clone1"`. -/
theorem claim_C4 (cfg : Config) (st : List (String × Tag)) (t : String) (ts : List String)
    (hst : cfg.settings.tags = some st) (hmiss : mapGet? t st = none) :
    (∀ (resolver : Tag → Option String) (joiner : List String → String),
        cfg.resolve_from_tags resolver joiner (some (t :: ts))
          = cfg.resolve_from_tags resolver joiner (some ts))
    ∧ exConfig.resolve_after_clone exProject2 = some "clone1" := by
  refine ⟨?_, by decide⟩
  intro resolver joiner
  rw [Config.resolve_from_tags.eq_def, Config.resolve_from_tags.eq_def, hst]
  dsimp only
  rw [resolvedWithPriority, resolvedWithPriority, mkBTreeSet_cons,
    flatMap_btreeInsert_of_nil (by rw [hmiss])]

/-- Witness for C4: the fixture's dangling tag name. -/
theorem claim_C4_witness :
    exConfig.resolve_from_tags (fun t => t.after_clone)
        (fun v => String.intercalate " && " v) (some ("tag-does-not-exist" :: ["tag1"]))
      = exConfig.resolve_from_tags (fun t => t.after_clone)
          (fun v => String.intercalate " && " v) (some ["tag1"])
    ∧ exConfig.resolve_after_clone exProject2 = some "clone1" := by
  have h := claim_C4 exConfig
    [("tag1", exTag1), ("tag2", exTag2), ("tag3", exTag3), ("tag4", exTag4)]
    "tag-does-not-exist" ["tag1"] rfl (by decide)
  exact ⟨h.1 (fun t => t.after_clone) (fun v => String.intercalate " && " v), h.2⟩

/- ## Sanity check (C5) -/

theorem checkSanityList_ok_iff (home_dir : Option RsPath) (d : String) (cfg : Config) :
    ∀ (l : List (String × Project)),
    (checkSanityList home_dir d cfg l = Except.ok () ↔
      ∀ np ∈ l, (cfg.actual_path_to_project home_dir d np.2).isAbs = true)
  | [] => by simp [checkSanityList]
  | (k, p) :: rest => by
    rw [checkSanityList, Project.check_sanity]
    cases habs : (cfg.actual_path_to_project home_dir d p).isAbs with
    | true =>
      rw [if_pos rfl]
      rw [checkSanityList_ok_iff home_dir d cfg rest]
      constructor
      · intro h np hnp
        rcases List.mem_cons.mp hnp with rfl | hnp
        · exact habs
        · exact h np hnp
      · intro h np hnp
        exact h np (List.mem_cons_of_mem _ hnp)
    | false =>
      rw [if_neg (by simp)]
      constructor
      · intro h
        exact absurd h (by simp)
      · intro h
        have := h (k, p) (List.mem_cons_self _ _)
        rw [habs] at this
        exact absurd this (by simp)

theorem checkSanityList_error (home_dir : Option RsPath) (d : String) (cfg : Config) :
    ∀ (l : List (String × Project)) (n : String) (p : Project),
    l.find? (fun np => !(cfg.actual_path_to_project home_dir d np.2).isAbs) = some (n, p) →
    checkSanityList home_dir d cfg l = Except.error (AppErr.userError
      ("Misconfigured project " ++ p.name ++ ": resolved path "
        ++ pathRepr (cfg.actual_path_to_project home_dir d p)
        ++ " is relative which is not allowed"))
  | [], n, p, hf => by simp at hf
  | (k, q) :: rest, n, p, hf => by
    rw [checkSanityList, Project.check_sanity]
    cases habs : (cfg.actual_path_to_project home_dir d q).isAbs with
    | true =>
      rw [if_pos rfl]
      have hq : ((fun np => !(cfg.actual_path_to_project home_dir d np.2).isAbs)
          ((k, q) : String × Project)) = false := by
        simp [habs]
      rw [List.find?_cons_of_neg rest (by simp [hq])] at hf
      exact checkSanityList_error home_dir d cfg rest n p hf
    | false =>
      have hq : ((fun np => !(cfg.actual_path_to_project home_dir d np.2).isAbs)
          ((k, q) : String × Project)) = true := by
        simp [habs]
      rw [List.find?_cons_of_pos rest hq] at hf
      rcases Option.some.inj hf with ⟨rfl, rfl⟩
      rw [if_neg (by simp)]

theorem check_sanity_of_list_ok {home_dir : Option RsPath} {d : String} {cfg : Config}
    (h : checkSanityList home_dir d cfg cfg.projects = Except.ok ()) :
    cfg.check_sanity home_dir d = Except.ok cfg := by
  rw [Config.check_sanity, h]
  rfl

theorem check_sanity_of_list_error {home_dir : Option RsPath} {d : String} {cfg : Config}
    {e : AppErr} (h : checkSanityList home_dir d cfg cfg.projects = Except.error e) :
    cfg.check_sanity home_dir d = Except.error e := by
  rw [Config.check_sanity, h]
  rfl

/-- C5: the sanity check succeeds, returning the config unchanged, exactly
when every project's resolved workspace path is absolute; it fails on the
first violating project (in iteration order) with an error naming that
project and the resolved path; and it is the gate applied by `read_config`
after parsing and by `write_config` before serialization. -/
theorem claim_C5 (home_dir : Option RsPath) (d : String)
    (parsed : Except AppErr Config) (cfg : Config) :
    read_config home_dir d parsed = parsed.bind (Config.check_sanity home_dir d)
    ∧ write_config home_dir d cfg = cfg.check_sanity home_dir d
    ∧ (cfg.check_sanity home_dir d = Except.ok cfg ↔
        ∀ np ∈ cfg.projects, (cfg.actual_path_to_project home_dir d np.2).isAbs = true)
    ∧ ((∃ e, cfg.check_sanity home_dir d = Except.error e) ↔
        ¬ ∀ np ∈ cfg.projects, (cfg.actual_path_to_project home_dir d np.2).isAbs = true)
    ∧ (∀ n p, cfg.projects.find?
          (fun np => !(cfg.actual_path_to_project home_dir d np.2).isAbs) = some (n, p) →
        cfg.check_sanity home_dir d = Except.error (AppErr.userError
          ("Misconfigured project " ++ p.name ++ ": resolved path "
            ++ pathRepr (cfg.actual_path_to_project home_dir d p)
            ++ " is relative which is not allowed"))) := by
  refine ⟨rfl, rfl, ?_, ?_, ?_⟩
  · cases h : checkSanityList home_dir d cfg cfg.projects with
    | ok u =>
      cases u
      rw [check_sanity_of_list_ok h]
      rw [← checkSanityList_ok_iff home_dir d cfg cfg.projects, h]
      simp
    | error e =>
      rw [check_sanity_of_list_error h]
      constructor
      · intro hc
        exact Except.noConfusion hc
      · intro hall
        rw [(checkSanityList_ok_iff home_dir d cfg cfg.projects).mpr hall] at h
        exact Except.noConfusion h
  · cases h : checkSanityList home_dir d cfg cfg.projects with
    | ok u =>
      cases u
      rw [check_sanity_of_list_ok h]
      constructor
      · rintro ⟨e, he⟩
        exact Except.noConfusion he
      · intro hn
        exact absurd ((checkSanityList_ok_iff home_dir d cfg cfg.projects).mp h) hn
    | error e =>
      rw [check_sanity_of_list_error h]
      constructor
      · rintro ⟨e', he'⟩
        intro hall
        rw [(checkSanityList_ok_iff home_dir d cfg cfg.projects).mpr hall] at h
        exact Except.noConfusion h
      · intro hn
        exact ⟨e, rfl⟩
  · intro n p hf
    exact check_sanity_of_list_error
      (checkSanityList_error home_dir d cfg cfg.projects n p hf)

/-- Witness for C5: the all-absolute fixture passes and the config with a
relative override path fails with the message naming it. -/
theorem claim_C5_witness :
    read_config none "D" (Except.ok exConfig)
        = (Except.ok exConfig).bind (Config.check_sanity none "D")
    ∧ (exConfig.check_sanity none "D" = Except.ok exConfig ↔
        ∀ np ∈ exConfig.projects,
          (exConfig.actual_path_to_project none "D" np.2).isAbs = true)
    ∧ exBadConfig.check_sanity none "D" = Except.error (AppErr.userError
        ("Misconfigured project " ++ exBadProject.name ++ ": resolved path "
          ++ pathRepr (exBadConfig.actual_path_to_project none "D" exBadProject)
          ++ " is relative which is not allowed")) := by
  have hg := claim_C5 none "D" (Except.ok exConfig) exConfig
  have hb := claim_C5 none "D" (Except.ok exBadConfig) exBadConfig
  exact ⟨hg.1, hg.2.2.1, hb.2.2.2.2 "bad" exBadProject (by decide)⟩

/- ## Path expansion (C6) -/

/-- C6 counterexample: with no determinable home directory, expanding
`~/foo/bar` does not fail — `expand_path` is a total function and returns
the path unchanged, tilde intact and still relative. -/
theorem claim_C6_counterexample :
    expand_path none (parsePath "~/foo/bar") = parsePath "~/foo/bar"
    ∧ (expand_path none (parsePath "~/foo/bar")).isAbs = false
    ∧ (expand_path none (parsePath "~/foo/bar")).comps = ["~", "foo", "bar"] := by
  decide

/-- C6 (amended): `expand_path` is the identity on every path whose first
component is not the home shorthand `~` (e.g. `/foo/bar`); on a path
starting with `~` it replaces the shorthand with the resolved home
directory, keeping the remaining components (`~/foo/bar` with home
`/my/home` yields `/my/home/foo/bar`); and when no home directory can be
determined it returns the path unchanged rather than failing (the
still-relative result is caught only later, by the sanity check). -/
theorem claim_C6 (home_dir : Option RsPath) (path : RsPath) (h : RsPath) :
    (path.startsWith tildePath = false → expand_path home_dir path = path)
    ∧ expand_path none path = path
    ∧ (path.startsWith tildePath = true →
        expand_path (some h) path = h.join ⟨false, path.comps.tail⟩)
    ∧ expand_path (some (parsePath "/my/home")) (parsePath "~/foo/bar")
        = parsePath "/my/home/foo/bar"
    ∧ expand_path home_dir (parsePath "/foo/bar") = parsePath "/foo/bar" := by
  refine ⟨?_, ?_, ?_, by decide, ?_⟩
  · intro hsw
    rw [expand_path, if_neg (by simp [hsw])]
  · cases hsw : path.startsWith tildePath with
    | true => rw [expand_path, if_pos hsw, do_expand]
    | false => rw [expand_path, if_neg (by simp [hsw])]
  · intro hsw
    rw [expand_path, if_pos hsw, do_expand]
  · rw [expand_path, if_neg (by decide)]

/-- Witness for C6 at the two example paths. -/
theorem claim_C6_witness :
    (parsePath "/foo/bar").startsWith tildePath = false
    ∧ expand_path (some (parsePath "/my/home")) (parsePath "/foo/bar") = parsePath "/foo/bar"
    ∧ (parsePath "~/foo/bar").startsWith tildePath = true
    ∧ expand_path (some (parsePath "/my/home")) (parsePath "~/foo/bar")
        = (parsePath "/my/home").join ⟨false, (parsePath "~/foo/bar").comps.tail⟩ :=
  ⟨by decide,
   (claim_C6 (some (parsePath "/my/home")) (parsePath "/foo/bar") (parsePath "/my/home")).1 (by decide),
   by decide,
   (claim_C6 (some (parsePath "/my/home")) (parsePath "~/foo/bar") (parsePath "/my/home")).2.2.1 (by decide)⟩

/- ## Project-name derivation (C9) -/

theorem splitChar_ne_nil (sep : Char) : ∀ (l : List Char), splitChar sep l ≠ []
  | [] => by simp [splitChar]
  | c :: cs => by
    simp only [splitChar]
    by_cases h : c = sep
    · rw [if_pos h]
      simp
    · rw [if_neg h]
      cases splitChar sep cs with
      | nil => simp
      | cons s rest => simp

theorem repo_name_from_url_ok (url : String) :
    ∃ s, repo_name_from_url url = Except.ok s := by
  obtain ⟨frag, hf⟩ := getLast?_of_ne_nil (splitChar_ne_nil '/' url.data)
  rw [repo_name_from_url, hf]
  exact ⟨_, rfl⟩

/-- C9: the derived name is the final `/`-delimited URL segment with at
most one trailing `".git"` removed — `fw`, `fw` and `fw.git` on the three
reference URLs — and the derivation never fails (every URL has a final,
possibly empty, segment). -/
theorem claim_C9 :
    repo_name_from_url "https://github.com/mriehl/fw" = Except.ok "fw"
    ∧ repo_name_from_url "git@github.com:mriehl/fw.git" = Except.ok "fw"
    ∧ repo_name_from_url "git@github.com:mriehl/fw.git.git" = Except.ok "fw.git"
    ∧ (∀ (url : String) (frag : List Char),
        (splitChar '/' url.data).getLast? = some frag →
        repo_name_from_url url = Except.ok
          (if strEndsWith ⟨frag⟩ ".git" then strDropRight ⟨frag⟩ 4 else ⟨frag⟩))
    ∧ (∀ url, ∃ s, repo_name_from_url url = Except.ok s) := by
  refine ⟨by decide, by decide, by decide, ?_, repo_name_from_url_ok⟩
  intro url frag hf
  rw [repo_name_from_url, hf]

/-- Witness for C9 on a concrete URL with one `.git` suffix. -/
theorem claim_C9_witness :
    repo_name_from_url "a/b.git" = Except.ok
      (if strEndsWith ⟨"b.git".data⟩ ".git" then strDropRight ⟨"b.git".data⟩ 4
       else ⟨"b.git".data⟩) :=
  claim_C9.2.2.2.1 "a/b.git" "b.git".data (by decide)

/- ## Adding a project (C7) -/

/-- C7: the add step (before the persistence gateway) fails exactly when
the given-or-derived name already exists as a project key — the
no-derivable-name failure cannot occur, since name derivation always
succeeds — and on success it inserts a new `Project` whose `git` is the
URL, whose `after_clone`, `after_workon` and `tags` are copied verbatim
from the settings' defaults, and whose `override_path` is unset. -/
theorem claim_C7 (cfg : Config) (maybe_name : Option String) (url : String)
    (name : String) (hname : addName maybe_name url = Except.ok name) :
    ((mapGet? name cfg.projects).isSome = true →
        add_entry (Except.ok cfg) maybe_name url = Except.error (AppErr.userError
          ("Project key " ++ name ++ " already exists, not gonna overwrite it for you")))
    ∧ ((mapGet? name cfg.projects).isSome = false →
        add_entry (Except.ok cfg) maybe_name url = Except.ok { cfg with projects := mapInsert name ⟨name, url, cfg.settings.default_after_clone, cfg.settings.default_after_workon, none, cfg.settings.default_tags⟩ cfg.projects })
    ∧ (∀ (mn : Option String) (u : String), ∃ s, addName mn u = Except.ok s) := by
  refine ⟨?_, ?_, ?_⟩
  · intro hdup
    rw [add_entry, hname]
    dsimp only
    rw [if_pos hdup]
  · intro hfresh
    rw [add_entry, hname]
    dsimp only
    rw [if_neg (by simp [hfresh])]
  · intro mn u
    cases mn with
    | some n => exact ⟨n, rfl⟩
    | none => exact repo_name_from_url_ok u

/-- Witness for C7: a duplicate add fails, a fresh add with a derived name
succeeds with the defaults copied. -/
theorem claim_C7_witness :
    add_entry (Except.ok exConfigD) (some "exists") "http://x/y"
        = Except.error (AppErr.userError
          ("Project key " ++ "exists" ++ " already exists, not gonna overwrite it for you"))
    ∧ add_entry (Except.ok exConfigD) none "https://github.com/mriehl/fw"
        = Except.ok { exConfigD with projects := mapInsert "fw" ⟨"fw", "https://github.com/mriehl/fw", exConfigD.settings.default_after_clone, exConfigD.settings.default_after_workon, none, exConfigD.settings.default_tags⟩ exConfigD.projects } :=
  ⟨(claim_C7 exConfigD (some "exists") "http://x/y" "exists" rfl).1 (by decide),
   (claim_C7 exConfigD none "https://github.com/mriehl/fw" "fw" (by decide)).2.1 (by decide)⟩

/- ## Updating a project (C8) -/

/-- C8: the update operation fails exactly when the name starts with
`http` or `git@`, or is not an existing project key; otherwise each
present optional argument replaces the corresponding field, absent ones
keep the old value, the project's `name` field is kept, and the tag
assignment is always cleared. -/
theorem claim_C8 (cfg : Config) (name : String)
    (git after_workon after_clone override_path : Option String) :
    ((strStartsWith name "http" || strStartsWith name "git@") = true →
        update_entry (Except.ok cfg) name git after_workon after_clone override_path
          = Except.error (AppErr.userError
            (name ++ " looks like a repo URL and not like a project name, please fix")))
    ∧ ((strStartsWith name "http" || strStartsWith name "git@") = false →
        mapGet? name cfg.projects = none →
        update_entry (Except.ok cfg) name git after_workon after_clone override_path
          = Except.error (AppErr.userError
            ("Project key " ++ name ++ " does not exists. Can not update.")))
    ∧ (∀ old, (strStartsWith name "http" || strStartsWith name "git@") = false →
        mapGet? name cfg.projects = some old →
        update_entry (Except.ok cfg) name git after_workon after_clone override_path
          = Except.ok { cfg with projects := mapInsert name ⟨old.name, git.getD old.git, after_clone <|> old.after_clone, after_workon <|> old.after_workon, override_path <|> old.override_path, none⟩ cfg.projects }) := by
  refine ⟨?_, ?_, ?_⟩
  · intro hurl
    rw [update_entry, if_pos hurl]
  · intro hurl hmiss
    rw [update_entry, if_neg (by simp [hurl]), hmiss]
  · intro old hurl hget
    rw [update_entry, if_neg (by simp [hurl]), hget]

/-- Witness for C8: a URL-like name, an unknown name, and a successful
field update on the fixture. -/
theorem claim_C8_witness :
    update_entry (Except.ok exConfigD) "git@host:a/b.git" (some "g") none none none
        = Except.error (AppErr.userError
          ("git@host:a/b.git" ++ " looks like a repo URL and not like a project name, please fix"))
    ∧ update_entry (Except.ok exConfigD) "nope" none none none none
        = Except.error (AppErr.userError
          ("Project key " ++ "nope" ++ " does not exists. Can not update."))
    ∧ update_entry (Except.ok exConfigD) "exists" (some "newgit") none (some "nc") none
        = Except.ok { exConfigD with projects := mapInsert "exists" ⟨exProjectE.name, (some "newgit").getD exProjectE.git, some "nc" <|> exProjectE.after_clone, none <|> exProjectE.after_workon, none <|> exProjectE.override_path, none⟩ exConfigD.projects } :=
  ⟨(claim_C8 exConfigD "git@host:a/b.git" (some "g") none none none).1 (by decide),
   (claim_C8 exConfigD "nope" none none none none).2.1 (by decide) (by decide),
   (claim_C8 exConfigD "exists" (some "newgit") none (some "nc") none).2.2 exProjectE
     (by decide) (by decide)⟩
